import Mathlib

/-!
Verification of the Ambient-AI companion bot core against its specification.

The Python source is shallowly embedded: the durable memory store is modelled
as a finite map from document names to contents (`MemFS`), pure gating
predicates of `autonomy.py` become Lean functions, `bot.py`'s message
splitting is modelled over `List Char` with Python slicing/strip semantics,
and the fallible `update_file` returns `Except`.
-/

set_option maxRecDepth 4000

open scoped List

/-- The fixed set of memory document names: the keys of the `MEMORY_FILES`
dictionary in `memory.py` (the seed templates are elided; every claim here
depends only on the key set). -/
def MEMORY_FILES_keys : List String :=
  ["identity.md", "user_context.md", "conversation_summary.md",
   "active_threads.md", "queue.md"]

/-- The on-disk memory directory, as a map from file name to contents.
`none` means the file does not exist. -/
def MemFS : Type := String → Option String

/-- Model of `MemoryManager.update_file` (memory.py lines 107-111): raises
`ValueError` when the name is not a key of `MEMORY_FILES`, otherwise
atomically replaces the file contents. -/
def update_file (fs : MemFS) (filename content : String) : Except String MemFS :=
  if filename ∈ MEMORY_FILES_keys then
    .ok (fun n => if n = filename then some content else fs n)
  else
    .error ("Unknown memory file: " ++ filename)

/-- Model of `MemoryManager._read_file` (memory.py lines 82-88): returns the file
contents, or the empty string when the file does not exist. -/
def read_file (fs : MemFS) (filename : String) : String :=
  (fs filename).getD ""

/-- The update-application loop of `AmbientBot._maybe_synthesize`
(bot.py lines 110-124): for each `(filename, content)` pair of the model's
update mapping, skip `identity.md`, otherwise call `update_file`; the
whole loop runs inside one `try`/`except`, so an exception raised by
`update_file` (an unknown name) aborts the rest of the batch, keeping the
writes already performed. -/
def apply_updates (fs : MemFS) : List (String × String) → MemFS
  | [] => fs
  | (filename, content) :: rest =>
    if filename = "identity.md" then
      apply_updates fs rest
    else
      match update_file fs filename content with
      | .ok fs1 => apply_updates fs1 rest
      | .error _ => fs

/-- Model of `AutonomyLoop._in_quiet_hours` (autonomy.py lines 25-34), with the
current UTC hour and the configured bounds as arguments. -/
def in_quiet_hours (hour start_h end_h : Nat) : Bool :=
  if start_h > end_h then
    hour ≥ start_h || hour < end_h
  else
    start_h ≤ hour && hour < end_h

/-- Model of `AutonomyLoop._cooldown_active` (autonomy.py lines 36-40): time is in
seconds; `last_message_time = none` models `bot.last_message_time is None`. -/
def cooldown_active (last_message_time : Option Int) (now : Int)
    (cooldown_hours : Nat) : Bool :=
  match last_message_time with
  | none => false
  | some t => now - t < (cooldown_hours : Int) * 3600

/-- Model of `AutonomyLoop._daily_limit_reached` (autonomy.py lines 42-48), over the
bot's stored counter state. -/
def daily_limit_reached (count : Nat) (storedDate : Option String)
    (today : String) (maxPerDay : Nat) : Bool :=
  if storedDate ≠ some today then false
  else count ≥ maxPerDay

/-- Model of `AmbientBot._is_authorized` (bot.py lines 100-103). -/
def is_authorized (allowed : List Int) (user_id : Int) : Bool :=
  if allowed.isEmpty then true else allowed.contains user_id

/-- C1: for every update mapping returned by the model during consolidation,
the identity document is never written: after the apply loop of
`_maybe_synthesize` completes, the content of `identity.md` is unchanged,
whether or not the mapping contains the key `identity.md`. -/
theorem consolidation_preserves_identity (fs : MemFS)
    (updates : List (String × String)) :
    apply_updates fs updates "identity.md" = fs "identity.md" := by
  induction updates generalizing fs with
  | nil => rfl
  | cons head rest ih =>
    obtain ⟨filename, content⟩ := head
    by_cases hid : filename = "identity.md"
    · simp [apply_updates, hid, ih]
    · simp only [apply_updates, if_neg hid, update_file]
      by_cases hmem : filename ∈ MEMORY_FILES_keys
      · rw [if_pos hmem]
        simp only [ih]
        exact if_neg (fun h => hid h.symm)
      · rw [if_neg hmem]

/-- C2 counterexample: an unknown document name in the middle of a batch
drops the remaining updates. Here `bogus.md` is outside the fixed set,
`queue.md` is inside it and distinct from `identity.md`, yet after the
apply loop `queue.md` was not updated with `"y"` (the claim says it should
still be applied). -/
theorem unknown_name_drops_batch_cex :
    ("bogus.md" ∉ MEMORY_FILES_keys) ∧ ("queue.md" ∈ MEMORY_FILES_keys) ∧
    ("queue.md" ≠ "identity.md") ∧
    apply_updates (fun _ => none)
      [("bogus.md", "x"), ("queue.md", "y")] "queue.md" ≠ some "y" := by
  refine ⟨by decide, by decide, by decide, ?_⟩
  decide

/-- C2 amended: when the apply loop of `_maybe_synthesize` reaches an entry
whose document name is outside the fixed set, the raised error is caught at
the batch level, so that entry and every later entry of the batch are
dropped and the store is left as it was at that point (writes performed
earlier in the batch are kept, since the recursion reaches them first). -/
theorem unknown_name_aborts_batch (fs : MemFS) (f c : String)
    (rest : List (String × String)) (hf : f ∉ MEMORY_FILES_keys) :
    apply_updates fs ((f, c) :: rest) = fs := by
  have hid : f ≠ "identity.md" := by
    intro h; exact hf (h ▸ (by decide : "identity.md" ∈ MEMORY_FILES_keys))
  simp only [apply_updates, if_neg hid, update_file]
  rw [if_neg hf]

/-- Witness for the C2 amended theorem at a concrete input. -/
theorem unknown_name_aborts_batch_witness :
    apply_updates (fun _ => none) [("bogus.md", "x"), ("queue.md", "y")]
      = (fun _ => none) :=
  unknown_name_aborts_batch (fun _ => none) "bogus.md" "x"
    [("queue.md", "y")] (by decide)

/-- C5: the quiet-hours predicate equals the reference definition (wrapping
window iff `start > end`), and enumerates exactly the expected hour sets on
the two example windows. -/
theorem in_quiet_hours_correct :
    (∀ h s e : Nat, in_quiet_hours h s e = true ↔
      (if s > e then (h ≥ s ∨ h < e) else (s ≤ h ∧ h < e))) ∧
    ((List.range 24).filter (fun h => in_quiet_hours h 23 8)
      = [0, 1, 2, 3, 4, 5, 6, 7, 23]) ∧
    ((List.range 24).filter (fun h => in_quiet_hours h 8 23)
      = [8, 9, 10, 11, 12, 13, 14, 15, 16, 17, 18, 19, 20, 21, 22]) := by
  refine ⟨fun h s e => ?_, by decide, by decide⟩
  unfold in_quiet_hours
  by_cases hse : s > e
  · simp [hse]
  · simp [hse]

/-- C6: the daily-limit predicate holds iff the stored date equals the
current date and the count is at least the maximum; in particular, with
yesterday's stored date and a count equal to the maximum, the check reports
not-reached while the stored count is unchanged (it is an input the
predicate does not modify). -/
theorem daily_limit_reached_correct :
    (∀ (count : Nat) (storedDate : Option String) (today : String)
        (maxPerDay : Nat),
      daily_limit_reached count storedDate today maxPerDay = true ↔
        (storedDate = some today ∧ count ≥ maxPerDay)) ∧
    daily_limit_reached 3 (some "2026-10-11") "2026-10-12" 3 = false := by
  refine ⟨fun count storedDate today maxPerDay => ?_, by decide⟩
  unfold daily_limit_reached
  by_cases hd : storedDate = some today
  · simp [hd]
  · simp [hd]

/-- C9: writing a document whose name is in the fixed set and reading it
back returns exactly the written content; writing under a name outside the
fixed set fails with the unknown-document error and produces no new store. -/
theorem write_read_roundtrip (fs : MemFS) (name content : String) :
    (name ∈ MEMORY_FILES_keys →
      ∃ fs1, update_file fs name content = .ok fs1 ∧
        read_file fs1 name = content) ∧
    (name ∉ MEMORY_FILES_keys →
      update_file fs name content
        = .error ("Unknown memory file: " ++ name)) := by
  constructor
  · intro hmem
    refine ⟨fun n => if n = name then some content else fs n, ?_, ?_⟩
    · simp [update_file, hmem]
    · simp [read_file]
  · intro hmem
    simp [update_file, hmem]

/-- Witness for the C9 round-trip theorem at concrete inputs: both the
known-name and the unknown-name halves are discharged. -/
theorem write_read_roundtrip_witness :
    (∃ fs1, update_file (fun _ => none) "queue.md" "hello" = .ok fs1 ∧
      read_file fs1 "queue.md" = "hello") ∧
    update_file (fun _ => none) "bogus.md" "hello"
      = .error ("Unknown memory file: " ++ "bogus.md") :=
  ⟨(write_read_roundtrip (fun _ => none) "queue.md" "hello").1 (by decide),
   (write_read_roundtrip (fun _ => none) "bogus.md" "hello").2 (by decide)⟩

/-- C10: when the configured list of allowed user ids is empty, every user
id is authorized; when it is non-empty, exactly the ids in the list are. -/
theorem is_authorized_correct (allowed : List Int) (user_id : Int) :
    is_authorized allowed user_id = true ↔
      (allowed = [] ∨ user_id ∈ allowed) := by
  unfold is_authorized
  by_cases he : allowed.isEmpty
  · simp [he, List.isEmpty_iff.mp he]
  · simp only [if_neg he]
    rw [List.isEmpty_iff] at he
    simp [he]

/-- Model of the `Session` class (bot.py lines 54-81): turn history, last-activity time
(seconds, as an integer timestamp) and the turn counter. -/
structure Session where
  messages : List (String × String)
  last_activity : Int
  message_count : Nat

/-- Model of `Session.is_expired` (bot.py lines 67-69): `elapsed` is the current
time minus the last-activity time, in seconds. -/
def Session.is_expired (s : Session) (now : Int) (timeout_minutes : Nat) : Bool :=
  now - s.last_activity > (timeout_minutes : Int) * 60

/-- The expiry-consolidation condition of `AmbientBot._handle_message`
(bot.py line 135): `if session.messages and session.is_expired(...)`. -/
def expiry_consolidation_trigger (s : Session) (now : Int)
    (timeout_minutes : Nat) : Bool :=
  !s.messages.isEmpty && s.is_expired now timeout_minutes

/-- C4 counterexample: a session with zero turns whose last activity is
10000 seconds in the past reports expired with a 30-minute timeout, so
`is_expired` is not equivalent to "non-empty history and elapsed time over
the timeout" as the claim states. -/
theorem is_expired_ignores_history_cex :
    ¬ ((Session.mk [] 0 0).is_expired 10000 30 = true ↔
        ((Session.mk [] 0 0).messages ≠ [] ∧
          10000 - (Session.mk [] 0 0).last_activity > (30 : Int) * 60)) := by
  decide

/-- C4 amended: `is_expired` itself returns true iff the elapsed seconds
since last activity exceed the timeout, regardless of the turn history;
the non-empty-history condition is enforced separately by the message
handler, whose combined trigger holds iff the history is non-empty and the
elapsed time exceeds the timeout. -/
theorem is_expired_amended (s : Session) (now : Int) (timeout_minutes : Nat) :
    (s.is_expired now timeout_minutes = true ↔
      now - s.last_activity > (timeout_minutes : Int) * 60) ∧
    (expiry_consolidation_trigger s now timeout_minutes = true ↔
      (s.messages ≠ [] ∧ now - s.last_activity > (timeout_minutes : Int) * 60)) := by
  constructor
  · simp [Session.is_expired]
  · simp [expiry_consolidation_trigger, Session.is_expired,
      List.isEmpty_iff]


/-- Python's default whitespace set for `str.strip` / `lstrip` / `rstrip`,
restricted to ASCII: space, tab, newline, carriage return, vertical tab
and form feed. -/
def pyWhitespace (c : Char) : Bool :=
  c = ' ' || c = '\t' || c = '\n' || c = '\r' || c = '\x0b' || c = '\x0c'

/-- Python `str.lstrip()` over a character list. -/
def lstrip (l : List Char) : List Char :=
  l.dropWhile pyWhitespace

/-- Python `str.rstrip()` over a character list. -/
def rstrip (l : List Char) : List Char :=
  (l.reverse.dropWhile pyWhitespace).reverse

/-- Python `str.strip()` over a character list. -/
def pyStrip (l : List Char) : List Char :=
  rstrip (lstrip l)

/-- Splits `l` at the first occurrence of the non-empty separator `sep`,
returning the part before and the part after it, or `none` when `sep` does
not occur. `fuel` bounds the scan; callers pass `l.length + 1`, which is
always sufficient. -/
def firstSplit (sep : List Char) : Nat → List Char → Option (List Char × List Char)
  | 0, _ => none
  | fuel + 1, l =>
    if sep.isPrefixOf l then some ([], l.drop sep.length)
    else
      match l with
      | [] => none
      | c :: rest => (firstSplit sep fuel rest).map (fun p => (c :: p.1, p.2))

/-- Python `text.split(sep)` for a non-empty separator: the pieces between
consecutive non-overlapping occurrences of `sep`, scanned left to right.
`fuel` bounds the number of pieces; callers pass `l.length + 1`, which is
always sufficient. -/
def pySplit (sep : List Char) : Nat → List Char → List (List Char)
  | 0, l => [l]
  | fuel + 1, l =>
    match firstSplit sep (l.length + 1) l with
    | none => [l]
    | some (before, after) => before :: pySplit sep fuel after

/-- Python's `sub in text` substring test. -/
def containsSub (text sub : List Char) : Bool :=
  (firstSplit sub (text.length + 1) text).isSome

/-- The code-fence stripping of `ClaudeClient.synthesize`
(claude_client.py lines 54-58): `text.split("```json")[1].split("```")[0]`
when a json fence is present, else the same with a plain fence, else the
text unchanged. -/
def stripFences (text : List Char) : List Char :=
  if containsSub text "```json".toList then
    (pySplit "```".toList
        (((pySplit "```json".toList (text.length + 1) text).getD 1 []).length + 1)
        ((pySplit "```json".toList (text.length + 1) text).getD 1 [])).headD []
  else if containsSub text "```".toList then
    (pySplit "```".toList
        (((pySplit "```".toList (text.length + 1) text).getD 1 []).length + 1)
        ((pySplit "```".toList (text.length + 1) text).getD 1 [])).headD []
  else text

/-- The shape of a successfully parsed synthesis response: `json.loads`
returns an object whose optional `updates` member is a mapping of document
name to replacement content; `result.get` with key `updates` defaults to
the empty mapping when the member is absent. -/
structure SynthParsed where
  reasoning : Option String
  updates : Option (List (String × String))

/-- The response handling of `ClaudeClient.synthesize` (claude_client.py
lines 41-66), with the external `json.loads` call abstracted as `loads`
(returning `none` exactly when Python raises `JSONDecodeError`): strip
recognized code fences, strip surrounding whitespace, parse, and on
failure return the empty update mapping. -/
def synthesize (loads : List Char → Option SynthParsed) (raw : List Char) :
    List (String × String) :=
  match loads (pyStrip (stripFences raw)) with
  | some r => r.updates.getD []
  | none => []

/-- C8: whenever structured parsing of the fence-stripped, trimmed model
output fails, `synthesize` returns the empty update mapping — it is a
total function, so the failure never escapes as an exception — and the
recognized code-fence markers are stripped before parsing, as the two
fence examples show. -/
theorem parse_failure_yields_no_updates
    (loads : List Char → Option SynthParsed) (raw : List Char)
    (hfail : loads (pyStrip (stripFences raw)) = none) :
    synthesize loads raw = [] ∧
    stripFences "```json\nabc\n```".toList = "\nabc\n".toList ∧
    stripFences "```\nabc\n```".toList = "\nabc\n".toList := by
  refine ⟨?_, by decide, by decide⟩
  unfold synthesize
  rw [hfail]

/-- Witness for the C8 theorem: a parser that always fails, on a concrete
raw response, yields the empty update mapping. -/
theorem parse_failure_yields_no_updates_witness :
    synthesize (fun _ => none) "not json at all".toList = [] :=
  (parse_failure_yields_no_updates (fun _ => none) "not json at all".toList rfl).1

/-- The structured decision returned by the thinking phase
(`ClaudeClient.think`), as consumed by `AutonomyLoop.run_cycle`:
`decision.get("journal_entry")`, `decision.get("queue_updates")`,
`decision.get("should_message", False)` and
`decision.get("message_reason", ...)`. -/
structure Decision where
  journal_entry : Option String
  queue_updates : Option String
  should_message : Bool
  message_reason : String

/-- Python truthiness of an optional string (`if journal:`): `none` and
the empty string are falsy. -/
def truthy : Option String → Option String
  | some s => if s = "" then none else some s
  | none => none

/-- The observable outcome of one autonomy cycle: the memory store after
the cycle, the journal reflection written (if any), whether the
composition model call was made, and the user ids a delivery was
attempted for. -/
structure CycleResult where
  fs : MemFS
  journal_written : Option String
  compose_called : Bool
  delivered_to : List Int

/-- Model of `AutonomyLoop.run_cycle` (autonomy.py lines 56-122) after the thinking
phase, with the think result passed in as `decision`: quiet-hours gate
first (skip everything), then apply the journal reflection and the queue
replacement, then the should-message check, the cooldown gate, the daily
limit gate, and finally compose and deliver to every allowed user id. A
failure of the `queue.md` write would be caught by the cycle's outer
`try`/`except`, ending the cycle with the state reached so far. -/
def run_cycle (quiet_start quiet_end cooldown_hours maxPerDay : Nat)
    (allowed : List Int) (last_message_time : Option Int)
    (count : Nat) (storedDate : Option String) (fs : MemFS)
    (decision : Decision) (now : Int) (hour : Nat) (today : String) :
    CycleResult :=
  if in_quiet_hours hour quiet_start quiet_end then
    ⟨fs, none, false, []⟩
  else
    let jw := truthy decision.journal_entry
    let afterQueue : Except CycleResult MemFS :=
      match truthy decision.queue_updates with
      | some q =>
        match update_file fs "queue.md" q with
        | .ok fs1 => .ok fs1
        | .error _ => .error ⟨fs, jw, false, []⟩
      | none => .ok fs
    match afterQueue with
    | .error r => r
    | .ok fs1 =>
      if !decision.should_message then ⟨fs1, jw, false, []⟩
      else if cooldown_active last_message_time now cooldown_hours then
        ⟨fs1, jw, false, []⟩
      else if daily_limit_reached count storedDate today maxPerDay then
        ⟨fs1, jw, false, []⟩
      else
        ⟨fs1, jw, true, if allowed.isEmpty then [] else allowed⟩

/-- C7: in a cycle that runs (not in quiet hours) where the thinking
decision says should-message but the cooldown gate is active, the
composition model call is never made and no delivery is attempted, while
the journal reflection and the queue replacement returned by the thinking
phase are still applied before the gate. -/
theorem cooldown_suppresses_outreach
    (quiet_start quiet_end cooldown_hours maxPerDay : Nat)
    (allowed : List Int) (last_message_time : Option Int)
    (count : Nat) (storedDate : Option String) (fs : MemFS)
    (decision : Decision) (now : Int) (hour : Nat) (today : String)
    (hquiet : in_quiet_hours hour quiet_start quiet_end = false)
    (hmsg : decision.should_message = true)
    (hcool : cooldown_active last_message_time now cooldown_hours = true) :
    (run_cycle quiet_start quiet_end cooldown_hours maxPerDay allowed
        last_message_time count storedDate fs decision now hour
        today).compose_called = false ∧
    (run_cycle quiet_start quiet_end cooldown_hours maxPerDay allowed
        last_message_time count storedDate fs decision now hour
        today).delivered_to = [] ∧
    (run_cycle quiet_start quiet_end cooldown_hours maxPerDay allowed
        last_message_time count storedDate fs decision now hour
        today).journal_written = truthy decision.journal_entry ∧
    (run_cycle quiet_start quiet_end cooldown_hours maxPerDay allowed
        last_message_time count storedDate fs decision now hour
        today).fs "queue.md"
      = (match truthy decision.queue_updates with
         | some q => some q
         | none => fs "queue.md") := by
  have hq : ("queue.md" : String) ∈ MEMORY_FILES_keys := by decide
  unfold run_cycle
  rw [hquiet]
  simp only [Bool.false_eq_true, if_false]
  cases hqu : truthy decision.queue_updates with
  | none =>
    simp [update_file, hq, hmsg, hcool]
  | some q =>
    simp [update_file, hq, hmsg, hcool]

/-- Witness for the C7 theorem: quiet hours 23-8 with current hour 12,
cooldown 2 hours with the last outbound message 30 minutes (1800 seconds)
ago, a decision with should-message true, a journal reflection and a queue
replacement: outreach is suppressed while both side effects are applied. -/
theorem cooldown_suppresses_outreach_witness :
    (run_cycle 23 8 2 3 [42] (some 0) 0 none (fun _ => none)
        ⟨some "reflect", some "new queue", true, "checking in"⟩
        1800 12 "2026-10-12").compose_called = false ∧
    (run_cycle 23 8 2 3 [42] (some 0) 0 none (fun _ => none)
        ⟨some "reflect", some "new queue", true, "checking in"⟩
        1800 12 "2026-10-12").delivered_to = [] ∧
    (run_cycle 23 8 2 3 [42] (some 0) 0 none (fun _ => none)
        ⟨some "reflect", some "new queue", true, "checking in"⟩
        1800 12 "2026-10-12").journal_written
      = truthy (some "reflect") ∧
    (run_cycle 23 8 2 3 [42] (some 0) 0 none (fun _ => none)
        ⟨some "reflect", some "new queue", true, "checking in"⟩
        1800 12 "2026-10-12").fs "queue.md"
      = (match truthy (some "new queue") with
         | some q => some q
         | none => (fun (_ : String) => (none : Option String)) "queue.md") :=
  cooldown_suppresses_outreach 23 8 2 3 [42] (some 0) 0 none
    (fun _ => none) ⟨some "reflect", some "new queue", true, "checking in"⟩
    1800 12 "2026-10-12" (by decide) rfl (by decide)

/-- Python `text.rfind(ab, 0, limit)` for a two-character pattern: the
largest index `i` such that the pattern occurs at `i` and the whole match
lies inside `text[0:limit]` (`i + 2 <= limit`). The scan runs left to
right, keeping the latest match in `best`; the caller starts it with
`i = 0` and `best = none` (`none` plays Python's `-1`). -/
def rfind2 (a b : Char) : List Char → Nat → Nat → Option Nat → Option Nat
  | [], _, _, best => best
  | x :: rest, i, limit, best =>
    if i + 2 ≤ limit then
      rfind2 a b rest (i + 1) limit
        (if x = a ∧ rest.head? = some b then some i else best)
    else best

/-- Python `text.rfind(c, 0, limit)` for a one-character pattern. -/
def rfind1 (a : Char) : List Char → Nat → Nat → Option Nat → Option Nat
  | [], _, _, best => best
  | x :: rest, i, limit, best =>
    if i + 1 ≤ limit then
      rfind1 a rest (i + 1) limit (if x = a then some i else best)
    else best

/-- The split-point selection of `split_message` (bot.py lines 34-46):
the last paragraph break before the limit, else the last sentence-ending
period-plus-space (split after the period), else the last newline, else a
hard cut at the limit. -/
def choose_split (text : List Char) (max_len : Nat) : Nat :=
  match rfind2 '\n' '\n' text 0 max_len none with
  | some i => i
  | none =>
    match rfind2 '.' ' ' text 0 max_len none with
    | some i => i + 1
    | none =>
      match rfind1 '\n' text 0 max_len none with
      | some i => i
      | none => max_len

/-- The `while text:` loop of `split_message` (bot.py lines 29-49): when
the remaining text fits, it is the final chunk; otherwise the text is cut
at the chosen split point, the chunk is right-stripped and the remainder
left-stripped. `fuel` bounds the iteration count; the wrapper passes
`text.length + 1`, which suffices because every iteration shortens the
text. -/
def split_message_go (max_len : Nat) : Nat → List Char → List (List Char)
  | 0, _ => []
  | fuel + 1, text =>
    if text.isEmpty then []
    else if text.length ≤ max_len then [text]
    else
      rstrip (text.take (choose_split text max_len)) ::
        split_message_go max_len fuel (lstrip (text.drop (choose_split text max_len)))

/-- Model of `split_message` (bot.py lines 23-51) over a character list, with
Telegram's default limit of 4096. -/
def split_message (text : List Char) (max_len : Nat := 4096) : List (List Char) :=
  if text.length ≤ max_len then [text]
  else split_message_go max_len (text.length + 1) text

/-- Non-whitespace characters: the content that boundary trimming must
preserve. -/
def nonWS (c : Char) : Bool := !pyWhitespace c

theorem lstrip_sublist (l : List Char) : lstrip l <+ l :=
  (List.dropWhile_suffix pyWhitespace).sublist

theorem rstrip_sublist (l : List Char) : rstrip l <+ l := by
  have h : List.dropWhile pyWhitespace l.reverse <+ l.reverse :=
    (List.dropWhile_suffix pyWhitespace).sublist
  simpa [rstrip] using List.reverse_sublist.mpr h

theorem filter_nonWS_dropWhile (l : List Char) :
    (l.dropWhile pyWhitespace).filter nonWS = l.filter nonWS := by
  conv_rhs => rw [← List.takeWhile_append_dropWhile (p := pyWhitespace) (l := l)]
  rw [List.filter_append]
  have : (l.takeWhile pyWhitespace).filter nonWS = [] := by
    rw [List.filter_eq_nil_iff]
    intro a ha
    have := List.mem_takeWhile_imp ha
    simp [nonWS, this]
  rw [this, List.nil_append]

theorem filter_nonWS_lstrip (l : List Char) :
    (lstrip l).filter nonWS = l.filter nonWS :=
  filter_nonWS_dropWhile l

theorem filter_nonWS_rstrip (l : List Char) :
    (rstrip l).filter nonWS = l.filter nonWS := by
  unfold rstrip
  rw [List.filter_reverse, filter_nonWS_dropWhile, List.filter_reverse,
    List.reverse_reverse]

theorem rfind2_eq_some (a b : Char) :
    ∀ (l : List Char) (i limit : Nat) (best : Option Nat) (j : Nat),
      rfind2 a b l i limit best = some j →
      best = some j ∨ ∃ k, j = i + k ∧ l[k]? = some a ∧ i + k + 2 ≤ limit := by
  intro l
  induction l with
  | nil => intro i limit best j h; exact Or.inl h
  | cons x rest ih =>
    intro i limit best j h
    rw [rfind2] at h
    by_cases hlim : i + 2 ≤ limit
    · rw [if_pos hlim] at h
      rcases ih (i + 1) limit _ j h with hbest | ⟨k, hk, hget, hb⟩
      · by_cases hmatch : x = a ∧ rest.head? = some b
        · rw [if_pos hmatch] at hbest
          injection hbest with hij
          subst hij
          exact Or.inr ⟨0, by omega, by simp [hmatch.1], by omega⟩
        · rw [if_neg hmatch] at hbest
          exact Or.inl hbest
      · exact Or.inr ⟨k + 1, by omega, by simpa using hget, by omega⟩
    · rw [if_neg hlim] at h
      exact Or.inl h

theorem rfind1_eq_some (a : Char) :
    ∀ (l : List Char) (i limit : Nat) (best : Option Nat) (j : Nat),
      rfind1 a l i limit best = some j →
      best = some j ∨ ∃ k, j = i + k ∧ l[k]? = some a ∧ i + k + 1 ≤ limit := by
  intro l
  induction l with
  | nil => intro i limit best j h; exact Or.inl h
  | cons x rest ih =>
    intro i limit best j h
    rw [rfind1] at h
    by_cases hlim : i + 1 ≤ limit
    · rw [if_pos hlim] at h
      rcases ih (i + 1) limit _ j h with hbest | ⟨k, hk, hget, hb⟩
      · by_cases hmatch : x = a
        · rw [if_pos hmatch] at hbest
          injection hbest with hij
          subst hij
          exact Or.inr ⟨0, by omega, by simp [hmatch], by omega⟩
        · rw [if_neg hmatch] at hbest
          exact Or.inl hbest
      · exact Or.inr ⟨k + 1, by omega, by simpa using hget, by omega⟩
    · rw [if_neg hlim] at h
      exact Or.inl h

/-- Every split point chosen by `choose_split` is at most the limit. -/
theorem choose_split_le (text : List Char) (max_len : Nat) :
    choose_split text max_len ≤ max_len := by
  unfold choose_split
  cases h2 : rfind2 '\n' '\n' text 0 max_len none with
  | some i =>
    show i ≤ max_len
    rcases rfind2_eq_some _ _ _ _ _ _ _ h2 with h | ⟨k, hk, _, hb⟩
    · exact absurd h (by simp)
    · omega
  | none =>
    cases hp : rfind2 '.' ' ' text 0 max_len none with
    | some i =>
      show i + 1 ≤ max_len
      rcases rfind2_eq_some _ _ _ _ _ _ _ hp with h | ⟨k, hk, _, hb⟩
      · exact absurd h (by simp)
      · omega
    | none =>
      cases hn : rfind1 '\n' text 0 max_len none with
      | some i =>
        show i ≤ max_len
        rcases rfind1_eq_some _ _ _ _ _ _ hn with h | ⟨k, hk, _, hb⟩
        · exact absurd h (by simp)
        · omega
      | none => show max_len ≤ max_len; exact Nat.le_refl max_len

/-- When the chosen split point is zero, the text starts with a newline:
the period branch adds one to the found index and the hard cut equals the
(positive) limit, so a zero split point can only come from a newline match
at index zero. -/
theorem choose_split_eq_zero (text : List Char) (max_len : Nat)
    (hml : 1 ≤ max_len) (h : choose_split text max_len = 0) :
    text[0]? = some '\n' := by
  unfold choose_split at h
  cases h2 : rfind2 '\n' '\n' text 0 max_len none with
  | some i =>
    rw [h2] at h
    have hi : i = 0 := h
    rcases rfind2_eq_some _ _ _ _ _ _ _ h2 with hx | ⟨k, hk, hget, hb⟩
    · exact absurd hx (by simp)
    · have hk0 : k = 0 := by omega
      rw [hk0] at hget; exact hget
  | none =>
    rw [h2] at h
    cases hp : rfind2 '.' ' ' text 0 max_len none with
    | some i =>
      rw [hp] at h
      have hi : i + 1 = 0 := h
      omega
    | none =>
      rw [hp] at h
      cases hn : rfind1 '\n' text 0 max_len none with
      | some i =>
        rw [hn] at h
        have hi : i = 0 := h
        rcases rfind1_eq_some _ _ _ _ _ _ hn with hx | ⟨k, hk, hget, hb⟩
        · exact absurd hx (by simp)
        · have hk0 : k = 0 := by omega
          rw [hk0] at hget; exact hget
      | none =>
        rw [hn] at h
        have hi : max_len = 0 := h
        omega

/-- Every loop iteration of `split_message` strictly shortens the text:
either the split point is positive (so at least one character is cut off),
or it is zero, in which case the text starts with a newline that the
left-strip of the remainder removes. -/
theorem next_text_lt (text : List Char) (max_len : Nat)
    (hml : 1 ≤ max_len) (hlong : max_len < text.length) :
    (lstrip (text.drop (choose_split text max_len))).length < text.length := by
  have hpos : 0 < text.length := by omega
  rcases Nat.eq_zero_or_pos (choose_split text max_len) with hz | hs
  · rw [hz, List.drop_zero]
    have hhead := choose_split_eq_zero text max_len hml hz
    cases text with
    | nil => simp at hpos
    | cons c rest =>
      have hc : c = '\n' := by simpa using hhead
      have hws : pyWhitespace c = true := by rw [hc]; decide
      rw [lstrip, List.dropWhile_cons, hws]
      simp only [if_true]
      have := (List.dropWhile_suffix (l := rest) pyWhitespace).sublist.length_le
      simp only [List.length_cons]
      omega
  · have h1 : (lstrip (text.drop (choose_split text max_len))).length
        ≤ (text.drop (choose_split text max_len)).length :=
      (lstrip_sublist _).length_le
    rw [List.length_drop] at h1
    omega

/-- Every chunk produced by the splitting loop has length at most the
limit: a cut chunk is a right-stripped take of at most the split point,
and the final chunk fits by the loop's own test. -/
theorem split_message_go_chunk_le (max_len : Nat) :
    ∀ (fuel : Nat) (text c : List Char),
      c ∈ split_message_go max_len fuel text → c.length ≤ max_len := by
  intro fuel
  induction fuel with
  | zero => intro text c hc; simp [split_message_go] at hc
  | succ fuel ih =>
    intro text c hc
    rw [split_message_go] at hc
    by_cases hemp : text.isEmpty
    · rw [if_pos hemp] at hc; simp at hc
    · rw [if_neg hemp] at hc
      by_cases hfit : text.length ≤ max_len
      · rw [if_pos hfit] at hc
        simp at hc
        subst hc
        omega
      · rw [if_neg hfit] at hc
        rcases List.mem_cons.mp hc with hhd | htl
        · subst hhd
          calc (rstrip (text.take (choose_split text max_len))).length
              ≤ (text.take (choose_split text max_len)).length :=
                (rstrip_sublist _).length_le
            _ ≤ choose_split text max_len := List.length_take_le _ _
            _ ≤ max_len := choose_split_le text max_len
        · exact ih _ c htl

/-- The concatenation of the chunks produced by the splitting loop is the
original text with only whitespace characters removed: it is a sublist of
the text, and it retains every non-whitespace character. -/
theorem split_message_go_join (max_len : Nat) (hml : 1 ≤ max_len) :
    ∀ (fuel : Nat) (text : List Char), text.length < fuel →
      (split_message_go max_len fuel text).flatten <+ text ∧
      (split_message_go max_len fuel text).flatten.filter nonWS
        = text.filter nonWS := by
  intro fuel
  induction fuel with
  | zero => intro text h; omega
  | succ fuel ih =>
    intro text hfuel
    rw [split_message_go]
    by_cases hemp : text.isEmpty
    · rw [if_pos hemp]
      rw [List.isEmpty_iff] at hemp
      subst hemp
      exact ⟨List.Sublist.refl _, rfl⟩
    · rw [if_neg hemp]
      by_cases hfit : text.length ≤ max_len
      · rw [if_pos hfit]
        constructor
        · simp
        · simp
      · rw [if_neg hfit]
        have hlong : max_len < text.length := by omega
        have hlt := next_text_lt text max_len hml hlong
        have hnext := ih (lstrip (text.drop (choose_split text max_len)))
          (by omega)
        constructor
        · rw [List.flatten_cons]
          calc rstrip (text.take (choose_split text max_len)) ++
                (split_message_go max_len fuel
                  (lstrip (text.drop (choose_split text max_len)))).flatten
              <+ text.take (choose_split text max_len) ++
                text.drop (choose_split text max_len) :=
                List.Sublist.append (rstrip_sublist _)
                  (hnext.1.trans (lstrip_sublist _))
            _ = text := List.take_append_drop _ _
        · rw [List.flatten_cons, List.filter_append, filter_nonWS_rstrip,
            hnext.2, filter_nonWS_lstrip]
          conv_rhs => rw [← List.take_append_drop (choose_split text max_len) text]
          rw [List.filter_append]

/-- C3 amended: every piece returned by `split_message` has length at most
4096, and the concatenation of the pieces is the original text with only
whitespace removed (a sublist of the text that keeps every non-whitespace
character), the split points being chosen by `choose_split` as the last
paragraph break before the limit, else the last sentence-ending
period-plus-space, else the last newline, else a hard cut. A piece can,
however, be empty (see the counterexample). -/
theorem split_message_bounds_reconstruct (text : List Char) :
    ((split_message text 4096).all fun c => decide (c.length ≤ 4096)) = true ∧
    (split_message text 4096).flatten <+ text ∧
    (split_message text 4096).flatten.filter nonWS = text.filter nonWS := by
  unfold split_message
  by_cases h : text.length ≤ 4096
  · rw [if_pos h]
    refine ⟨by simp [h], by simp, by simp⟩
  · rw [if_neg h]
    have hj := split_message_go_join 4096 (by omega) (text.length + 1) text
      (by omega)
    refine ⟨?_, hj.1, hj.2⟩
    rw [List.all_eq_true]
    intro c hc
    simpa using split_message_go_chunk_le 4096 (text.length + 1) text c hc

/-- A scan for a double newline over a run of letters finds nothing and
returns the carried best match. -/
theorem rfind2_replicate_a (n : Nat) :
    ∀ (i limit : Nat) (best : Option Nat),
      rfind2 '\n' '\n' (List.replicate n 'a') i limit best = best := by
  induction n with
  | zero => intro i limit best; rfl
  | succ n ih =>
    intro i limit best
    rw [List.replicate_succ, rfind2]
    by_cases hlim : i + 2 ≤ limit
    · rw [if_pos hlim, if_neg (fun hx => absurd hx.1 (by decide))]
      exact ih _ _ _
    · rw [if_neg hlim]

/-- On an over-limit input that starts with a paragraph break and continues
with letters, `split_message` returns an empty first piece followed by the
letters: the chosen split point is zero, so the first chunk is the
right-strip of an empty take. -/
theorem split_message_leading_break (n : Nat) (h0 : 1 ≤ n)
    (h1 : 4096 < n + 2) (h2 : n ≤ 4096) :
    split_message ('\n' :: '\n' :: List.replicate n 'a') 4096
      = [[], List.replicate n 'a'] := by
  obtain ⟨m, rfl⟩ : ∃ m, n = m + 1 := ⟨n - 1, by omega⟩
  have hlen : ('\n' :: '\n' :: List.replicate (m + 1) 'a').length = m + 3 := by
    simp
  have hhead : (List.replicate (m + 1) 'a').head? ≠ some '\n' := by
    rw [List.replicate_succ]
    intro hx
    simp at hx
  have hfind : rfind2 '\n' '\n' ('\n' :: '\n' :: List.replicate (m + 1) 'a')
      0 4096 none = some 0 := by
    rw [rfind2, if_pos (by omega), if_pos ⟨rfl, rfl⟩]
    rw [rfind2, if_pos (by omega), if_neg (fun hx => hhead hx.2)]
    exact rfind2_replicate_a (m + 1) 2 4096 (some 0)
  have hcs : choose_split ('\n' :: '\n' :: List.replicate (m + 1) 'a') 4096
      = 0 := by
    unfold choose_split
    rw [hfind]
  have hl : lstrip ('\n' :: '\n' :: List.replicate (m + 1) 'a')
      = List.replicate (m + 1) 'a' := by
    rw [lstrip, List.dropWhile_cons, if_pos (by decide),
      List.dropWhile_cons, if_pos (by decide), List.replicate_succ,
      List.dropWhile_cons, if_neg (by decide), ← List.replicate_succ]
  unfold split_message
  rw [hlen, if_neg (by omega)]
  have hf : m + 3 + 1 = (m + 3) + 1 := rfl
  rw [hf, split_message_go]
  have hemp1 : ¬(('\n' :: '\n' :: List.replicate (m + 1) 'a').isEmpty = true) := by
    simp
  have hfit1 : ¬(('\n' :: '\n' :: List.replicate (m + 1) 'a').length ≤ 4096) := by
    rw [hlen]; omega
  rw [if_neg hemp1, if_neg hfit1]
  rw [hcs, List.take_zero, List.drop_zero, hl]
  have hrs : rstrip ([] : List Char) = [] := rfl
  rw [hrs]
  have hf2 : m + 3 = (m + 2) + 1 := rfl
  rw [hf2, split_message_go]
  have hemp2 : ¬((List.replicate (m + 1) 'a').isEmpty = true) := by
    rw [List.replicate_succ]; simp
  have hfit2 : (List.replicate (m + 1) 'a').length ≤ 4096 := by
    rw [List.length_replicate]; omega
  rw [if_neg hemp2, if_pos hfit2]

/-- C3 counterexample: the 4097-character input consisting of a paragraph
break followed by 4095 letters is split into an empty first piece and the
letters, so `split_message` can return an empty piece. -/
theorem split_message_empty_piece_cex :
    [] ∈ split_message ('\n' :: '\n' :: List.replicate 4095 'a') 4096 ∧
    ('\n' :: '\n' :: List.replicate 4095 'a') ≠ [] := by
  rw [split_message_leading_break 4095 (by omega) (by omega) (by omega)]
  exact ⟨List.mem_cons_self _ _, List.cons_ne_nil _ _⟩
